import Mathlib

/-!
Formal model of the LS-8 virtual CPU in `src/ls8/cpu.py`.

Machine values are natural numbers: every value the interpreter ever
stores in `ram` or `reg` is a Python non-negative int (the initial
zeros, operand bytes, sums, products, `pc + 2`).  The stack pointer is
an `Int`, because the code decrements it with no lower bound.  Python
list indexing is modelled exactly: an index `i` with `-len ≤ i < 0`
silently wraps to `len + i`, and any other out-of-range index raises
`IndexError`, modelled as a fatal `Err.indexError` carrying the machine
state at the moment the exception is raised.
-/

set_option maxRecDepth 8000

namespace LS8

/-- Opcode constant `HLT = 0b00000001` from cpu.py. -/
def HLT : Nat := 0x01

/-- Opcode constant `PRN = 0b01000111` from cpu.py. -/
def PRN : Nat := 0x47

/-- Opcode constant `LDI = 0b10000010` from cpu.py. -/
def LDI : Nat := 0x82

/-- Opcode constant `MUL = 0b10100010` from cpu.py. -/
def MUL : Nat := 0xA2

/-- Opcode constant `ADD = 0b10100000` from cpu.py. -/
def ADD : Nat := 0xA0

/-- Opcode constant `PUSH = 0b01000101` from cpu.py. -/
def PUSH : Nat := 0x45

/-- Opcode constant `POP = 0b01000110` from cpu.py. -/
def POP : Nat := 0x46

/-- Opcode constant `CALL = 0b01010000` from cpu.py. -/
def CALL : Nat := 0x50

/-- Opcode constant `IRET = 0b00010011` from cpu.py. -/
def IRET : Nat := 0x13

/-- Python list read `xs[i]`: an index `i` with `0 ≤ i < len` reads cell
`i`; an index with `-len ≤ i < 0` silently wraps and reads cell
`len + i`; any other index raises IndexError (`none`). -/
def pyGet (xs : List Nat) (i : Int) : Option Nat :=
  if 0 ≤ i then
    if i < (xs.length : Int) then xs.get? i.toNat else none
  else
    if -(xs.length : Int) ≤ i then xs.get? (i + (xs.length : Int)).toNat else none

/-- Python list write `xs[i] = v`: the same index rule as `pyGet`;
out-of-range (`none`) raises IndexError. -/
def pySet (xs : List Nat) (i : Int) (v : Nat) : Option (List Nat) :=
  if 0 ≤ i then
    if i < (xs.length : Int) then some (xs.set i.toNat v) else none
  else
    if -(xs.length : Int) ≤ i then some (xs.set (i + (xs.length : Int)).toNat v) else none

/-- The CPU object's attributes, exactly the fields set in
`CPU.__init__`. -/
structure CPUState where
  ram : List Nat
  reg : List Nat
  pc : Nat
  ir : Nat
  mar : Nat
  mdr : Nat
  fl : Bool
  sp : Int
  deriving Repr, DecidableEq

/-- The state built by `CPU.__init__`: 256 zeroed ram cells, 8 zeroed
registers, `pc = 0`, `fl = False`, `sp = 0xF4`. -/
def CPUState.init : CPUState :=
  { ram := List.replicate 256 0
    reg := List.replicate 8 0
    pc := 0
    ir := 0
    mar := 0
    mdr := 0
    fl := false
    sp := 0xF4 }

/-- Fatal Python exception escaping `run()` or `alu()`; it carries the
machine state at the moment the exception is raised (the object's
attributes as the caller would observe them after the raise). -/
inductive Err where
  /-- Python `IndexError` from a list access with an index outside
  `[-len, len)`. -/
  | indexError (s : CPUState) : Err
  /-- Python `Exception("Unsupported ALU operation")` from `CPU.alu`. -/
  | unsupportedALU (s : CPUState) : Err
  deriving Repr, DecidableEq

/-- `CPU.alu(op, reg_a, reg_b)`: `reg[reg_a] += reg[reg_b]` for ADD,
`reg[reg_a] *= reg[reg_b]` for MUL, otherwise
`raise Exception("Unsupported ALU operation")` with the registers
untouched. -/
def alu (s : CPUState) (op reg_a reg_b : Nat) : Except Err CPUState :=
  if op = ADD then
    match pyGet s.reg (reg_a : Int), pyGet s.reg (reg_b : Int) with
    | some va, some vb =>
      match pySet s.reg (reg_a : Int) (va + vb) with
      | some r => .ok { s with reg := r }
      | none => .error (.indexError s)
    | _, _ => .error (.indexError s)
  else if op = MUL then
    match pyGet s.reg (reg_a : Int), pyGet s.reg (reg_b : Int) with
    | some va, some vb =>
      match pySet s.reg (reg_a : Int) (va * vb) with
      | some r => .ok { s with reg := r }
      | none => .error (.indexError s)
    | _, _ => .error (.indexError s)
  else
    .error (.unsupportedALU s)

/-- `CPU.ram_read(MAR)`: `return self.ram[MAR]`. -/
def ram_read (s : CPUState) (mar : Int) : Option Nat :=
  pyGet s.ram mar

/-- `CPU.ram_write(MAR, MDR)`: `self.ram[MAR] = MDR`. -/
def ram_write (s : CPUState) (mar : Int) (mdr : Nat) : Option CPUState :=
  (pySet s.ram mar mdr).map (fun r => { s with ram := r })

/-- The fetch phase of one loop iteration of `CPU.run`:
`IR = self.ram_read(self.pc)`, `operand_a = self.ram_read(self.pc + 1)`,
`operand_b = self.ram_read(self.pc + 2)`.  All three bytes are read
before the opcode is examined; a failed read is a fatal IndexError. -/
def fetch3 (s : CPUState) : Option (Nat × Nat × Nat) :=
  match ram_read s (s.pc : Int), ram_read s ((s.pc + 1 : Nat) : Int),
      ram_read s ((s.pc + 2 : Nat) : Int) with
  | some a, some b, some c => some (a, b, c)
  | _, _, _ => none

/-- The decode/execute phase of one loop iteration of `CPU.run`: the
if/elif cascade on `IR`, in source order (HLT, CALL, IRET, PUSH, POP,
LDI, MUL, ADD, PRN).  The returned Bool is the loop's `running` flag
after the iteration.  There is no else branch in the source: an opcode
matching no branch falls through with no state change and the loop
continues. -/
def exec (s : CPUState) (ir operand_a operand_b : Nat) : Except Err (CPUState × Bool) :=
  if ir = HLT then
    .ok (s, false)
  else if ir = CALL then
    match pySet s.ram (s.sp - 1) (s.pc + 2) with
    | none => .error (.indexError { s with sp := s.sp - 1 })
    | some ram1 =>
      match pyGet s.reg (operand_a : Int) with
      | none => .error (.indexError { s with sp := s.sp - 1, ram := ram1 })
      | some v => .ok ({ s with sp := s.sp - 1, ram := ram1, pc := v }, true)
  else if ir = IRET then
    .ok (s, true)
  else if ir = PUSH then
    match pyGet s.reg (operand_a : Int) with
    | none => .error (.indexError { s with sp := s.sp - 1 })
    | some v =>
      match pySet s.ram (s.sp - 1) v with
      | none => .error (.indexError { s with sp := s.sp - 1 })
      | some ram1 => .ok ({ s with sp := s.sp - 1, ram := ram1, pc := s.pc + 2 }, true)
  else if ir = POP then
    match pyGet s.ram s.sp with
    | none => .error (.indexError s)
    | some popped =>
      match pySet s.reg (operand_a : Int) popped with
      | none => .error (.indexError s)
      | some reg1 => .ok ({ s with reg := reg1, sp := s.sp + 1, pc := s.pc + 2 }, true)
  else if ir = LDI then
    match pySet s.reg (operand_a : Int) operand_b with
    | none => .error (.indexError s)
    | some reg1 => .ok ({ s with reg := reg1, pc := s.pc + 3 }, true)
  else if ir = MUL then
    match alu s MUL operand_a operand_b with
    | .error e => .error e
    | .ok s1 => .ok ({ s1 with pc := s1.pc + 3 }, true)
  else if ir = ADD then
    match alu s ADD operand_a operand_b with
    | .error e => .error e
    | .ok s1 => .ok ({ s1 with pc := s1.pc + 3 }, true)
  else if ir = PRN then
    match pyGet s.reg (operand_a : Int) with
    | none => .error (.indexError s)
    | some _ => .ok ({ s with pc := s.pc + 2 }, true)
  else
    .ok (s, true)

/-- One full iteration of the `while running:` loop of `CPU.run`. -/
def step (s : CPUState) : Except Err (CPUState × Bool) :=
  match fetch3 s with
  | none => .error (.indexError s)
  | some (ir, a, b) => exec s ir a b

/-- `CPU.run` with an explicit fuel bound on the number of loop
iterations: `.ok (some s)` means the loop exited normally (the running
flag was set to false by HLT) leaving final state `s`; `.ok none` means
the fuel ran out with the loop still running; `.error e` means a Python
exception escaped. -/
def runFuel : Nat → CPUState → Except Err (Option CPUState)
  | 0, _ => .ok none
  | n + 1, s =>
    match step s with
    | .error e => .error e
    | .ok (s1, false) => .ok (some s1)
    | .ok (s1, true) => runFuel n s1

/-- `run()` terminates normally: after finitely many loop iterations the
running flag is false and the loop exits (no exception, no infinite
loop). -/
def Terminates (s : CPUState) : Prop :=
  ∃ n s1, runFuel n s = .ok (some s1)

/-- The loader's contract consumed by the core: the program bytes are
written into ram starting at address 0 of a freshly constructed CPU,
before `run()` starts. -/
def loadProgram (prog : List Nat) : CPUState :=
  { CPUState.init with ram := prog ++ List.replicate (256 - prog.length) 0 }

/-! Basic list-access lemmas. -/

theorem listGet?_lt {α} (l : List α) (n : Nat) (h : n < l.length) :
    ∃ v, l.get? n = some v := by
  induction l generalizing n with
  | nil => simp at h
  | cons x xs ih =>
    cases n with
    | zero => exact ⟨x, rfl⟩
    | succ m => exact ih m (by simpa using h)

theorem listGet?_set_self {α} (l : List α) (n : Nat) (v : α) (h : n < l.length) :
    (l.set n v).get? n = some v := by
  induction l generalizing n with
  | nil => simp at h
  | cons x xs ih =>
    cases n with
    | zero => rfl
    | succ m => exact ih m (by simpa using h)

theorem listGet?_set_ne {α} (l : List α) (m n : Nat) (v : α) (h : m ≠ n) :
    (l.set m v).get? n = l.get? n := by
  induction l generalizing m n with
  | nil => rfl
  | cons x xs ih =>
    cases m with
    | zero =>
      cases n with
      | zero => exact absurd rfl h
      | succ k => rfl
    | succ m1 =>
      cases n with
      | zero => rfl
      | succ k => exact ih m1 k (fun hc => h (by rw [hc]))

theorem listGet?_append_right {α} (pre rest : List α) (k : Nat) :
    (pre ++ rest).get? (pre.length + k) = rest.get? k := by
  induction pre with
  | nil => simp
  | cons x xs ih => simpa [Nat.succ_add] using ih

/-! Reduction lemmas for the Python index model. -/

theorem pyGet_int (xs : List Nat) (i : Int) (h0 : 0 ≤ i) (h1 : i < (xs.length : Int)) :
    pyGet xs i = xs.get? i.toNat := by
  unfold pyGet
  rw [if_pos h0, if_pos h1]

theorem pySet_int (xs : List Nat) (i : Int) (v : Nat) (h0 : 0 ≤ i)
    (h1 : i < (xs.length : Int)) :
    pySet xs i v = some (xs.set i.toNat v) := by
  unfold pySet
  rw [if_pos h0, if_pos h1]

theorem pyGet_nat (xs : List Nat) (k : Nat) (h : k < xs.length) :
    pyGet xs (k : Int) = xs.get? k := by
  rw [pyGet_int xs k (Int.ofNat_nonneg k) (by exact_mod_cast h)]
  simp

theorem pySet_nat (xs : List Nat) (k v : Nat) (h : k < xs.length) :
    pySet xs (k : Int) v = some (xs.set k v) := by
  rw [pySet_int xs k v (Int.ofNat_nonneg k) (by exact_mod_cast h)]
  simp

theorem pyGet_oob (xs : List Nat) (i : Int)
    (h : (xs.length : Int) ≤ i ∨ i < -(xs.length : Int)) :
    pyGet xs i = none := by
  unfold pyGet
  rcases h with h | h
  · rw [if_pos (le_trans (Int.ofNat_nonneg _) h), if_neg (not_lt.mpr h)]
  · rw [if_neg (not_le.mpr (lt_of_lt_of_le h (neg_nonpos.mpr (Int.ofNat_nonneg _)))),
      if_neg (not_le.mpr h)]

theorem pySet_oob (xs : List Nat) (i : Int) (v : Nat)
    (h : (xs.length : Int) ≤ i ∨ i < -(xs.length : Int)) :
    pySet xs i v = none := by
  unfold pySet
  rcases h with h | h
  · rw [if_pos (le_trans (Int.ofNat_nonneg _) h), if_neg (not_lt.mpr h)]
  · rw [if_neg (not_le.mpr (lt_of_lt_of_le h (neg_nonpos.mpr (Int.ofNat_nonneg _)))),
      if_neg (not_le.mpr h)]

theorem pyGet_neg (xs : List Nat) (i : Int) (h0 : -(xs.length : Int) ≤ i) (h1 : i < 0) :
    pyGet xs i = xs.get? (i + (xs.length : Int)).toNat := by
  unfold pyGet
  rw [if_neg (not_le.mpr h1), if_pos h0]

theorem pySet_neg (xs : List Nat) (i : Int) (v : Nat) (h0 : -(xs.length : Int) ≤ i)
    (h1 : i < 0) :
    pySet xs i v = some (xs.set (i + (xs.length : Int)).toNat v) := by
  unfold pySet
  rw [if_neg (not_le.mpr h1), if_pos h0]

/-! Reduction lemmas for the execution loop. -/

theorem ram_read_nat (s : CPUState) (k : Nat) (h : k < s.ram.length) :
    ram_read s (k : Int) = s.ram.get? k :=
  pyGet_nat s.ram k h

theorem ram_read_oob (s : CPUState) (i : Int)
    (h : (s.ram.length : Int) ≤ i ∨ i < -(s.ram.length : Int)) :
    ram_read s i = none :=
  pyGet_oob s.ram i h

theorem step_eq_exec (s : CPUState) (ir a b : Nat)
    (h0 : ram_read s (s.pc : Int) = some ir)
    (h1 : ram_read s ((s.pc + 1 : Nat) : Int) = some a)
    (h2 : ram_read s ((s.pc + 2 : Nat) : Int) = some b) :
    step s = exec s ir a b := by
  unfold step fetch3
  rw [h0, h1, h2]

theorem runFuel_succ (n : Nat) (s : CPUState) :
    runFuel (n + 1) s =
      match step s with
      | .error e => .error e
      | .ok (s1, false) => .ok (some s1)
      | .ok (s1, true) => runFuel n s1 :=
  rfl

theorem runFuel_spin (s : CPUState) (h : step s = .ok (s, true)) :
    ∀ n, runFuel n s = .ok none := by
  intro n
  induction n with
  | zero => rfl
  | succ m ih =>
    rw [runFuel_succ, h]
    exact ih

theorem runFuel_err (n : Nat) (s : CPUState) (e : Err) (h : step s = .error e) :
    runFuel (n + 1) s = .error e := by
  rw [runFuel_succ, h]

/-- C7: for every operation tag other than ADD and MUL, `CPU.alu` raises
the "Unsupported ALU operation" exception to the caller, and the machine
state carried at the raise is the entry state: no register has been
modified. -/
theorem c7_alu_unsupported (s : CPUState) (op reg_a reg_b : Nat)
    (h1 : op ≠ ADD) (h2 : op ≠ MUL) :
    alu s op reg_a reg_b = .error (.unsupportedALU s) := by
  unfold alu
  rw [if_neg h1, if_neg h2]

theorem c7_alu_unsupported_witness :
    (0 : Nat) ≠ ADD ∧ (0 : Nat) ≠ MUL ∧
      alu CPUState.init 0 0 0 = .error (.unsupportedALU CPUState.init) :=
  ⟨by decide, by decide, c7_alu_unsupported CPUState.init 0 0 0 (by decide) (by decide)⟩

/-- C8: at machine construction, memory is 256 zero-filled cells, all 8
registers are zero, `pc = 0`, `sp = 0xF4 = 244`, and `fl = false`. -/
theorem c8_initial_state :
    CPUState.init.ram.length = 256 ∧ (∀ c ∈ CPUState.init.ram, c = 0) ∧
    CPUState.init.reg.length = 8 ∧ (∀ c ∈ CPUState.init.reg, c = 0) ∧
    CPUState.init.pc = 0 ∧ CPUState.init.sp = 0xF4 ∧ CPUState.init.fl = false := by
  refine ⟨?_, ?_, ?_, ?_, rfl, rfl, rfl⟩
  · show (List.replicate 256 (0 : Nat)).length = 256
    simp
  · show ∀ c ∈ List.replicate 256 (0 : Nat), c = 0
    exact fun c hc => List.eq_of_mem_replicate hc
  · show (List.replicate 8 (0 : Nat)).length = 8
    simp
  · show ∀ c ∈ List.replicate 8 (0 : Nat), c = 0
    exact fun c hc => List.eq_of_mem_replicate hc

/-- C2 counterexample: the freshly constructed machine fetches opcode
0x00, which is in none of the nine dispatch branches; the cycle raises
nothing (the result is `ok`, not an error) and the loop continues (the
running flag stays true), contradicting the claim that an unknown
opcode raises a fatal error and stops the loop. -/
theorem c2_counterexample :
    step CPUState.init = Except.ok (CPUState.init, true) :=
  rfl

/-- C2 amended: dispatching an opcode byte not in the table is a silent
no-op, not an error: the cycle leaves the whole machine state unchanged
and the loop continues, so `run()` spins forever on the unknown opcode
(it neither raises UnknownOpcode nor halts); in particular neither `pc`
nor any register is mutated. -/
theorem c2_unknown_opcode_spin (s : CPUState) (ir : Nat)
    (hlen : s.ram.length = 256) (hpc : s.pc + 2 < 256)
    (hir : s.ram.get? s.pc = some ir)
    (hunk : ir ∉ [HLT, PRN, LDI, MUL, ADD, PUSH, POP, CALL, IRET]) :
    step s = .ok (s, true) ∧ ∀ n, runFuel n s = .ok none := by
  obtain ⟨a, ha⟩ := listGet?_lt s.ram (s.pc + 1) (by omega)
  obtain ⟨b, hb⟩ := listGet?_lt s.ram (s.pc + 2) (by omega)
  have hs : step s = exec s ir a b :=
    step_eq_exec s ir a b
      (by rw [ram_read_nat s s.pc (by omega), hir])
      (by rw [ram_read_nat s (s.pc + 1) (by omega), ha])
      (by rw [ram_read_nat s (s.pc + 2) (by omega), hb])
  simp only [List.mem_cons, List.not_mem_nil, or_false, not_or] at hunk
  obtain ⟨n1, n2, n3, n4, n5, n6, n7, n8, n9⟩ := hunk
  have hstep : step s = .ok (s, true) := by
    rw [hs]
    unfold exec
    rw [if_neg n1, if_neg n8, if_neg n9, if_neg n6, if_neg n7, if_neg n3, if_neg n4,
      if_neg n5, if_neg n2]
  exact ⟨hstep, runFuel_spin s hstep⟩

theorem c2_unknown_opcode_spin_witness :
    CPUState.init.ram.length = 256 ∧ CPUState.init.pc + 2 < 256 ∧
    CPUState.init.ram.get? CPUState.init.pc = some 0 ∧
    (0 : Nat) ∉ [HLT, PRN, LDI, MUL, ADD, PUSH, POP, CALL, IRET] ∧
    step CPUState.init = .ok (CPUState.init, true) ∧
    runFuel 5 CPUState.init = .ok none := by
  have h := c2_unknown_opcode_spin CPUState.init 0 (by simp [CPUState.init]) (by decide)
    rfl (by decide)
  exact ⟨by simp [CPUState.init], by decide, rfl, by decide, h.1, h.2 5⟩

/-- C9: a cycle that fetches the IRET opcode (0x13) executes the `pass`
branch: the entire machine state is unchanged and the loop continues,
so `run()` re-fetches the same instruction forever and never
terminates (for any amount of fuel the loop is still running). -/
theorem c9_iret_noop_loop (s : CPUState)
    (hlen : s.ram.length = 256) (hpc : s.pc + 2 < 256)
    (hir : s.ram.get? s.pc = some IRET) :
    step s = .ok (s, true) ∧ ∀ n, runFuel n s = .ok none := by
  obtain ⟨a, ha⟩ := listGet?_lt s.ram (s.pc + 1) (by omega)
  obtain ⟨b, hb⟩ := listGet?_lt s.ram (s.pc + 2) (by omega)
  have hs : step s = exec s IRET a b :=
    step_eq_exec s IRET a b
      (by rw [ram_read_nat s s.pc (by omega), hir])
      (by rw [ram_read_nat s (s.pc + 1) (by omega), ha])
      (by rw [ram_read_nat s (s.pc + 2) (by omega), hb])
  have hstep : step s = .ok (s, true) := by rw [hs]; rfl
  exact ⟨hstep, runFuel_spin s hstep⟩

theorem c9_iret_noop_loop_witness :
    (loadProgram [IRET]).ram.length = 256 ∧ (loadProgram [IRET]).pc + 2 < 256 ∧
    (loadProgram [IRET]).ram.get? (loadProgram [IRET]).pc = some IRET ∧
    step (loadProgram [IRET]) = .ok (loadProgram [IRET], true) ∧
    runFuel 9 (loadProgram [IRET]) = .ok none := by
  have h := c9_iret_noop_loop (loadProgram [IRET]) (by simp [loadProgram, CPUState.init])
    (by decide) rfl
  exact ⟨by simp [loadProgram, CPUState.init], by decide, rfl, h.1, h.2 9⟩

/-- C10: every cycle speculatively reads `pc + 1` and `pc + 2` before
decoding, so with `pc ≥ 254` the fetch indexes past cell 255 and raises
a fatal IndexError — whatever the opcode at `pc` is, HLT included, the
cycle errors out and `run()` never halts cleanly from there. -/
theorem c10_fetch_overrun (s : CPUState)
    (hlen : s.ram.length = 256) (hpc : 254 ≤ s.pc) :
    step s = .error (.indexError s) ∧
    ∀ n, runFuel (n + 1) s = .error (.indexError s) := by
  have hf : fetch3 s = none := by
    unfold fetch3
    by_cases h : 256 ≤ s.pc
    · have hx : ram_read s (s.pc : Int) = none := by
        apply ram_read_oob
        left
        rw [hlen]
        exact_mod_cast h
      rw [hx]
    · push_neg at h
      obtain ⟨v, hv⟩ := listGet?_lt s.ram s.pc (by omega)
      have hx : ram_read s (s.pc : Int) = some v := by
        rw [ram_read_nat s s.pc (by omega), hv]
      rcases Nat.lt_or_ge s.pc 255 with h254 | h255
      · obtain ⟨w, hw⟩ := listGet?_lt s.ram (s.pc + 1) (by omega)
        have hy : ram_read s ((s.pc + 1 : Nat) : Int) = some w := by
          rw [ram_read_nat s (s.pc + 1) (by omega), hw]
        have hz : ram_read s ((s.pc + 2 : Nat) : Int) = none := by
          apply ram_read_oob
          left
          rw [hlen]
          exact_mod_cast (by omega : 256 ≤ s.pc + 2)
        rw [hx, hy, hz]
      · have hy : ram_read s ((s.pc + 1 : Nat) : Int) = none := by
          apply ram_read_oob
          left
          rw [hlen]
          exact_mod_cast (by omega : 256 ≤ s.pc + 1)
        rw [hx, hy]
  have hstep : step s = .error (.indexError s) := by
    unfold step
    rw [hf]
  exact ⟨hstep, fun n => runFuel_err n s _ hstep⟩

/-- Machine state with HLT at address 254 and `pc = 254`, used as the
C10 witness input. -/
def c10s : CPUState :=
  { CPUState.init with ram := List.replicate 254 0 ++ [HLT, 0], pc := 254 }

theorem c10_fetch_overrun_witness :
    c10s.ram.length = 256 ∧ 254 ≤ c10s.pc ∧ c10s.ram.get? c10s.pc = some HLT ∧
    step c10s = .error (.indexError c10s) ∧
    runFuel 1 c10s = .error (.indexError c10s) := by
  have h := c10_fetch_overrun c10s (by simp [c10s, CPUState.init]) (by decide)
  exact ⟨by simp [c10s, CPUState.init], by decide, rfl, h.1, h.2 0⟩

/-- Machine state about to execute PUSH R0 with the stack pointer
already at 0 (as after 244 pushes); register R0 holds 99. -/
def c3Before : CPUState :=
  { CPUState.init with
      ram := [PUSH, 0] ++ List.replicate 254 0
      reg := [99, 0, 0, 0, 0, 0, 0, 0]
      sp := 0 }

/-- The state after that PUSH: `sp` went to -1 and the write silently
landed in cell 255 — the top of memory — instead of failing. -/
def c3After : CPUState :=
  { c3Before with
      ram := ([PUSH, 0] ++ List.replicate 254 0).set 255 99
      pc := 2
      sp := -1 }

/-- C3 counterexample: decrementing `sp` past 0 and pushing does not
fail at all: the cycle succeeds (no error, loop still running) and the
value silently wraps around into cell 255, overwriting it — the exact
silent wraparound the claim rules out. -/
theorem c3_counterexample :
    step c3Before = Except.ok (c3After, true) ∧
    c3Before.ram.get? 255 = some 0 ∧ c3After.ram.get? 255 = some 99 :=
  ⟨rfl, rfl, rfl⟩

/-- C3 amended: a memory access with address above 255 or below -256 is
a fatal IndexError, but an address in [-256, -1] — in particular any
address reached by decrementing `sp` past 0 — is not an error: it
silently wraps around to the cell at address+256. -/
theorem c3_bounds (s : CPUState) (i : Int) (v : Nat) (hlen : s.ram.length = 256) :
    ((256 ≤ i ∨ i < -256) → pyGet s.ram i = none ∧ pySet s.ram i v = none) ∧
    (-256 ≤ i → i < 0 →
      pyGet s.ram i = pyGet s.ram (i + 256) ∧
      pySet s.ram i v = pySet s.ram (i + 256) v) := by
  have hl : (s.ram.length : Int) = 256 := by rw [hlen]; norm_num
  constructor
  · intro h
    have h' : (s.ram.length : Int) ≤ i ∨ i < -(s.ram.length : Int) := by rw [hl]; exact h
    exact ⟨pyGet_oob _ _ h', pySet_oob _ _ _ h'⟩
  · intro h0 h1
    have e0 : -(s.ram.length : Int) ≤ i := by rw [hl]; exact h0
    have e2 : (0 : Int) ≤ i + 256 := by omega
    have e3 : i + 256 < (s.ram.length : Int) := by rw [hl]; omega
    rw [pyGet_neg _ _ e0 h1, pySet_neg _ _ _ e0 h1, pyGet_int _ _ e2 e3,
      pySet_int _ _ _ e2 e3, hl]
    exact ⟨rfl, rfl⟩

theorem c3_bounds_witness :
    CPUState.init.ram.length = 256 ∧ (-256 : Int) ≤ -1 ∧ (-1 : Int) < 0 ∧
    pyGet CPUState.init.ram (-1) = pyGet CPUState.init.ram 255 ∧
    pySet CPUState.init.ram (-1) 5 = pySet CPUState.init.ram 255 5 := by
  have h := (c3_bounds CPUState.init (-1) 5 (by simp [CPUState.init])).2
    (by norm_num) (by norm_num)
  exact ⟨by simp [CPUState.init], by norm_num, by norm_num, h.1, h.2⟩

/-- C5: executing CALL decrements `sp` by 1, writes `pc_before + 2` (the
address of the instruction after the CALL) into memory at the
decremented `sp`, and sets `pc` to exactly the value of the operand
register — the generic per-opcode increment is not additionally
applied. -/
theorem c5_call_semantics (s : CPUState) (a va : Nat)
    (hlen : s.ram.length = 256) (hreg : s.reg.length = 8)
    (hpc : s.pc + 2 < 256) (ha : a < 8)
    (hop : s.ram.get? s.pc = some CALL)
    (hopa : s.ram.get? (s.pc + 1) = some a)
    (hsp0 : 0 ≤ s.sp - 1) (hsp1 : s.sp - 1 < 256)
    (hva : s.reg.get? a = some va) :
    step s = .ok ({ s with ram := s.ram.set (s.sp - 1).toNat (s.pc + 2),
                           sp := s.sp - 1, pc := va }, true) := by
  obtain ⟨b, hb⟩ := listGet?_lt s.ram (s.pc + 2) (by omega)
  have hs : step s = exec s CALL a b :=
    step_eq_exec s CALL a b
      (by rw [ram_read_nat s s.pc (by omega), hop])
      (by rw [ram_read_nat s (s.pc + 1) (by omega), hopa])
      (by rw [ram_read_nat s (s.pc + 2) (by omega), hb])
  have hw : pySet s.ram (s.sp - 1) (s.pc + 2) =
      some (s.ram.set (s.sp - 1).toNat (s.pc + 2)) :=
    pySet_int _ _ _ hsp0 (by rw [hlen]; exact_mod_cast hsp1)
  have hva' : pyGet s.reg (a : Int) = some va := by
    rw [pyGet_nat s.reg a (by omega), hva]
  rw [hs]
  unfold exec
  rw [if_neg (by decide : CALL ≠ HLT), if_pos rfl, hw, hva']

/-- Machine state about to execute CALL R1 with R1 holding address 7. -/
def c5s : CPUState :=
  { CPUState.init with
      ram := [CALL, 1] ++ List.replicate 254 0
      reg := [0, 7, 0, 0, 0, 0, 0, 0] }

theorem c5_call_semantics_witness :
    c5s.ram.get? c5s.pc = some CALL ∧ c5s.ram.get? (c5s.pc + 1) = some 1 ∧
    c5s.reg.get? 1 = some 7 ∧ (0 : Int) ≤ c5s.sp - 1 ∧ c5s.sp - 1 < 256 ∧
    step c5s = .ok ({ c5s with ram := c5s.ram.set (c5s.sp - 1).toNat (c5s.pc + 2),
                               sp := c5s.sp - 1, pc := 7 }, true) := by
  have h := c5_call_semantics c5s 1 7 (by simp [c5s, CPUState.init]) rfl
    (by decide) (by decide) rfl rfl (by decide) (by decide) rfl
  exact ⟨rfl, rfl, rfl, by decide, by decide, h⟩

/-- Machine state about to execute ADD R0, R0 with R0 holding 1. -/
def c4Before : CPUState :=
  { CPUState.init with
      ram := [ADD, 0, 0] ++ List.replicate 253 0
      reg := [1, 0, 0, 0, 0, 0, 0, 0] }

/-- The state after that ADD: R0 was doubled to 2. -/
def c4After : CPUState :=
  { c4Before with
      reg := [2, 0, 0, 0, 0, 0, 0, 0]
      pc := 3 }

/-- C4 counterexample: with `a = b = 0` and R0 = 1, executing ADD
changes R0 from 1 to 2 — register b (here the same cell as register a)
is mutated, contradicting the claim that register b is never mutated
including the case a = b. -/
theorem c4_counterexample :
    c4Before.ram.get? 0 = some ADD ∧ c4Before.ram.get? 1 = some 0 ∧
    c4Before.ram.get? 2 = some 0 ∧ c4Before.reg.get? 0 = some 1 ∧
    step c4Before = Except.ok (c4After, true) ∧ c4After.reg.get? 0 = some 2 :=
  ⟨rfl, rfl, rfl, rfl, rfl, rfl⟩

/-- C4 amended: executing ADD (respectively MUL) stores the arithmetic
sum (respectively product) of the two registers' prior values into
register a — also when a = b — and register b is not mutated whenever
b ≠ a; when a = b, register b is register a and receives the result. -/
theorem c4_add_mul_semantics (s : CPUState) (op a b va vb : Nat)
    (hlen : s.ram.length = 256) (hreg : s.reg.length = 8)
    (hpc : s.pc + 2 < 256) (ha : a < 8) (hb : b < 8)
    (hop2 : op = ADD ∨ op = MUL)
    (hop : s.ram.get? s.pc = some op)
    (hopa : s.ram.get? (s.pc + 1) = some a)
    (hopb : s.ram.get? (s.pc + 2) = some b)
    (hva : s.reg.get? a = some va) (hvb : s.reg.get? b = some vb) :
    step s = .ok ({ s with reg := s.reg.set a (if op = ADD then va + vb else va * vb),
                           pc := s.pc + 3 }, true) ∧
    (s.reg.set a (if op = ADD then va + vb else va * vb)).get? a =
      some (if op = ADD then va + vb else va * vb) ∧
    (b ≠ a → (s.reg.set a (if op = ADD then va + vb else va * vb)).get? b = some vb) := by
  have hs : step s = exec s op a b :=
    step_eq_exec s op a b
      (by rw [ram_read_nat s s.pc (by omega), hop])
      (by rw [ram_read_nat s (s.pc + 1) (by omega), hopa])
      (by rw [ram_read_nat s (s.pc + 2) (by omega), hopb])
  have hga : pyGet s.reg (a : Int) = some va := by
    rw [pyGet_nat s.reg a (by omega), hva]
  have hgb : pyGet s.reg (b : Int) = some vb := by
    rw [pyGet_nat s.reg b (by omega), hvb]
  refine ⟨?_, ?_, ?_⟩
  · rcases hop2 with h | h <;> subst h
    · have halu : alu s ADD a b = .ok { s with reg := s.reg.set a (va + vb) } := by
        unfold alu
        rw [if_pos rfl]
        simp only [hga, hgb, pySet_nat s.reg a (va + vb) (by omega : a < s.reg.length)]
      rw [hs]
      unfold exec
      rw [if_neg (by decide : ADD ≠ HLT), if_neg (by decide : ADD ≠ CALL),
        if_neg (by decide : ADD ≠ IRET), if_neg (by decide : ADD ≠ PUSH),
        if_neg (by decide : ADD ≠ POP), if_neg (by decide : ADD ≠ LDI),
        if_neg (by decide : ADD ≠ MUL), if_pos rfl, halu,
        if_pos (rfl : ADD = ADD)]
    · have halu : alu s MUL a b = .ok { s with reg := s.reg.set a (va * vb) } := by
        unfold alu
        rw [if_neg (by decide : MUL ≠ ADD), if_pos rfl]
        simp only [hga, hgb, pySet_nat s.reg a (va * vb) (by omega : a < s.reg.length)]
      rw [hs]
      unfold exec
      rw [if_neg (by decide : MUL ≠ HLT), if_neg (by decide : MUL ≠ CALL),
        if_neg (by decide : MUL ≠ IRET), if_neg (by decide : MUL ≠ PUSH),
        if_neg (by decide : MUL ≠ POP), if_neg (by decide : MUL ≠ LDI),
        if_pos rfl, halu, if_neg (by decide : MUL ≠ ADD)]
  · exact listGet?_set_self s.reg a _ (by omega)
  · intro hba
    rw [listGet?_set_ne s.reg a b _ (fun e => hba e.symm), hvb]

/-- Machine state about to execute ADD R0, R1 with R0 = 5 and R1 = 6. -/
def c4ws : CPUState :=
  { CPUState.init with
      ram := [ADD, 0, 1] ++ List.replicate 253 0
      reg := [5, 6, 0, 0, 0, 0, 0, 0] }

theorem c4_add_mul_semantics_witness :
    c4ws.ram.get? 0 = some ADD ∧ c4ws.reg.get? 0 = some 5 ∧ c4ws.reg.get? 1 = some 6 ∧
    step c4ws = .ok ({ c4ws with reg := c4ws.reg.set 0 (if ADD = ADD then 5 + 6 else 5 * 6),
                                 pc := c4ws.pc + 3 }, true) ∧
    (c4ws.reg.set 0 (if ADD = ADD then 5 + 6 else 5 * 6)).get? 0 =
      some (if ADD = ADD then 5 + 6 else 5 * 6) ∧
    ((1 : Nat) ≠ 0 → (c4ws.reg.set 0 (if ADD = ADD then 5 + 6 else 5 * 6)).get? 1 = some 6) := by
  have h := c4_add_mul_semantics c4ws ADD 0 1 5 6 (by simp [c4ws, CPUState.init]) rfl
    (by decide) (by decide) (by decide) (Or.inl rfl) rfl rfl rfl rfl rfl
  exact ⟨rfl, rfl, rfl, h.1, h.2.1, h.2.2⟩

/-- C6: executing PUSH r and then POP r2 (byte image PUSH r POP r2 at
`pc`, with the stack cell `sp - 1` in bounds and not overlapping the POP
instruction's own bytes) copies the original value of register r into
register r2 and returns `sp` to its pre-PUSH value. -/
theorem c6_push_pop_roundtrip (s : CPUState) (r r2 vr : Nat)
    (hlen : s.ram.length = 256) (hreg : s.reg.length = 8)
    (hr : r < 8) (hr2 : r2 < 8) (hpc : s.pc + 4 < 256)
    (hpush : s.ram.get? s.pc = some PUSH)
    (hpushr : s.ram.get? (s.pc + 1) = some r)
    (hpop : s.ram.get? (s.pc + 2) = some POP)
    (hpopr : s.ram.get? (s.pc + 3) = some r2)
    (hsp0 : 0 ≤ s.sp - 1) (hsp1 : s.sp - 1 < 256)
    (hnc1 : s.sp - 1 ≠ (s.pc : Int) + 2) (hnc2 : s.sp - 1 ≠ (s.pc : Int) + 3)
    (hvr : s.reg.get? r = some vr) :
    step s = .ok ({ s with ram := s.ram.set (s.sp - 1).toNat vr,
                           sp := s.sp - 1, pc := s.pc + 2 }, true) ∧
    step { s with ram := s.ram.set (s.sp - 1).toNat vr, sp := s.sp - 1, pc := s.pc + 2 }
      = .ok ({ s with ram := s.ram.set (s.sp - 1).toNat vr,
                      reg := s.reg.set r2 vr, sp := s.sp, pc := s.pc + 4 }, true) ∧
    (s.reg.set r2 vr).get? r2 = some vr := by
  have htn : ((s.sp - 1).toNat : Int) = s.sp - 1 := Int.toNat_of_nonneg hsp0
  have htlt : (s.sp - 1).toNat < 256 := by omega
  have hgr : pyGet s.reg (r : Int) = some vr := by
    rw [pyGet_nat s.reg r (by omega), hvr]
  have hw : pySet s.ram (s.sp - 1) vr = some (s.ram.set (s.sp - 1).toNat vr) :=
    pySet_int _ _ _ hsp0 (by rw [hlen]; exact_mod_cast hsp1)
  obtain ⟨b2, hb2⟩ := listGet?_lt s.ram (s.pc + 2) (by omega)
  have hstep1 :
      step s = .ok ({ s with ram := s.ram.set (s.sp - 1).toNat vr, sp := s.sp - 1,
                             pc := s.pc + 2 }, true) := by
    have hs : step s = exec s PUSH r b2 :=
      step_eq_exec s PUSH r b2
        (by rw [ram_read_nat s s.pc (by omega), hpush])
        (by rw [ram_read_nat s (s.pc + 1) (by omega), hpushr])
        (by rw [ram_read_nat s (s.pc + 2) (by omega), hb2])
    rw [hs]
    unfold exec
    rw [if_neg (by decide : PUSH ≠ HLT), if_neg (by decide : PUSH ≠ CALL),
      if_neg (by decide : PUSH ≠ IRET), if_pos rfl]
    simp only [hgr, hw]
  refine ⟨hstep1, ?_, listGet?_set_self s.reg r2 vr (by omega)⟩
  have hlen1 : (s.ram.set (s.sp - 1).toNat vr).length = 256 := by
    rw [List.length_set, hlen]
  have g2 : (s.ram.set (s.sp - 1).toNat vr).get? (s.pc + 2) = some POP := by
    rw [listGet?_set_ne s.ram _ _ vr (by omega), hpop]
  have g3 : (s.ram.set (s.sp - 1).toNat vr).get? (s.pc + 3) = some r2 := by
    rw [listGet?_set_ne s.ram _ _ vr (by omega), hpopr]
  obtain ⟨b4, hb4⟩ := listGet?_lt (s.ram.set (s.sp - 1).toNat vr) (s.pc + 4) (by omega)
  have hs2 :
      step { s with ram := s.ram.set (s.sp - 1).toNat vr, sp := s.sp - 1,
                    pc := s.pc + 2 }
        = exec { s with ram := s.ram.set (s.sp - 1).toNat vr, sp := s.sp - 1,
                        pc := s.pc + 2 } POP r2 b4 :=
    step_eq_exec _ POP r2 b4
      (by
        rw [ram_read_nat _ (s.pc + 2) (by rw [hlen1]; omega)]
        exact g2)
      (by
        rw [ram_read_nat _ (s.pc + 2 + 1) (by rw [hlen1]; omega)]
        exact g3)
      (by
        rw [ram_read_nat _ (s.pc + 2 + 2) (by rw [hlen1]; omega)]
        exact hb4)
  have hread : pyGet (s.ram.set (s.sp - 1).toNat vr) (s.sp - 1) = some vr := by
    rw [pyGet_int _ _ hsp0 (by rw [hlen1]; exact_mod_cast hsp1)]
    exact listGet?_set_self s.ram _ vr (by omega)
  have hwrite : pySet s.reg (r2 : Int) vr = some (s.reg.set r2 vr) :=
    pySet_nat s.reg r2 vr (by omega)
  rw [hs2]
  unfold exec
  rw [if_neg (by decide : POP ≠ HLT), if_neg (by decide : POP ≠ CALL),
    if_neg (by decide : POP ≠ IRET), if_neg (by decide : POP ≠ PUSH), if_pos rfl]
  simp only [hread, hwrite]
  rw [show s.pc + 2 + 2 = s.pc + 4 from by omega,
    show s.sp - 1 + 1 = s.sp from by omega]

/-- Machine state about to execute PUSH R0; POP R3 with R0 = 42. -/
def c6s : CPUState :=
  { CPUState.init with
      ram := [PUSH, 0, POP, 3] ++ List.replicate 252 0
      reg := [42, 0, 0, 0, 0, 0, 0, 0] }

theorem c6_push_pop_roundtrip_witness :
    c6s.ram.get? c6s.pc = some PUSH ∧ c6s.ram.get? (c6s.pc + 1) = some 0 ∧
    c6s.ram.get? (c6s.pc + 2) = some POP ∧ c6s.ram.get? (c6s.pc + 3) = some 3 ∧
    c6s.reg.get? 0 = some 42 ∧ (0 : Int) ≤ c6s.sp - 1 ∧ c6s.sp - 1 < 256 ∧
    step c6s = .ok ({ c6s with ram := c6s.ram.set (c6s.sp - 1).toNat 42,
                               sp := c6s.sp - 1, pc := c6s.pc + 2 }, true) ∧
    step { c6s with ram := c6s.ram.set (c6s.sp - 1).toNat 42, sp := c6s.sp - 1,
                    pc := c6s.pc + 2 }
      = .ok ({ c6s with ram := c6s.ram.set (c6s.sp - 1).toNat 42,
                        reg := c6s.reg.set 3 42, sp := c6s.sp, pc := c6s.pc + 4 }, true) ∧
    (c6s.reg.set 3 42).get? 3 = some 42 := by
  have h := c6_push_pop_roundtrip c6s 0 3 42 (by simp [c6s, CPUState.init]) rfl
    (by decide) (by decide) (by decide) rfl rfl rfl rfl (by decide) (by decide)
    (by decide) (by decide) rfl
  exact ⟨rfl, rfl, rfl, rfl, rfl, by decide, by decide, h.1, h.2.1, h.2.2⟩

/-- Straight-line instructions: the four opcodes that neither touch the
stack nor transfer control nor fall through as a no-op. -/
inductive Instr where
  | ldi (r v : Nat) : Instr
  | prn (r : Nat) : Instr
  | add (a b : Nat) : Instr
  | mul (a b : Nat) : Instr
  deriving Repr, DecidableEq

/-- Byte encoding of one instruction: opcode byte then operand bytes,
per the opcode table of cpu.py. -/
def Instr.enc : Instr → List Nat
  | .ldi r v => [LDI, r, v]
  | .prn r => [PRN, r]
  | .add a b => [ADD, a, b]
  | .mul a b => [MUL, a, b]

/-- Well-formed instruction: register operands are in 0..7. -/
def Instr.wf : Instr → Bool
  | .ldi r _ => r < 8
  | .prn r => r < 8
  | .add a b => a < 8 && b < 8
  | .mul a b => a < 8 && b < 8

/-- Byte image of a straight-line program terminated by HLT. -/
def encProg : List Instr → List Nat
  | [] => [HLT]
  | i :: is => i.enc ++ encProg is

theorem ram_read_at (s : CPUState) (pre rest : List Nat) (k : Nat)
    (hram : s.ram = pre ++ rest) (hk : k < rest.length) :
    ram_read s ((pre.length + k : Nat) : Int) = rest.get? k := by
  have hlt : pre.length + k < s.ram.length := by
    rw [hram, List.length_append]
    omega
  rw [ram_read_nat s (pre.length + k) hlt, hram, listGet?_append_right]

theorem step_at (s : CPUState) (ir a b : Nat) (rest pre : List Nat)
    (hram : s.ram = pre ++ (ir :: a :: b :: rest)) (hpc : s.pc = pre.length) :
    step s = exec s ir a b := by
  apply step_eq_exec
  · have h := ram_read_at s pre (ir :: a :: b :: rest) 0 hram (by simp)
    rw [hpc]
    simpa using h
  · have h := ram_read_at s pre (ir :: a :: b :: rest) 1 hram (by simp)
    rw [hpc]
    simpa using h
  · have h := ram_read_at s pre (ir :: a :: b :: rest) 2 hram (by simp)
    rw [hpc]
    simpa using h

theorem step_straight (i : Instr) (s : CPUState) (pre post : List Nat)
    (hram : s.ram = pre ++ (i.enc ++ post))
    (hlen : s.ram.length = 256) (hpc : s.pc = pre.length)
    (hreg : s.reg.length = 8) (hwf : i.wf = true) (hpost : 1 ≤ post.length) :
    ∃ reg1, reg1.length = 8 ∧
      step s = .ok ({ s with reg := reg1, pc := s.pc + i.enc.length }, true) := by
  cases i with
  | ldi r v =>
    have hr : r < 8 := by simpa [Instr.wf] using hwf
    have hs : step s = exec s LDI r v := step_at s LDI r v post pre hram hpc
    refine ⟨s.reg.set r v, by simp [hreg], ?_⟩
    rw [hs]
    unfold exec
    rw [if_neg (by decide : LDI ≠ HLT), if_neg (by decide : LDI ≠ CALL),
      if_neg (by decide : LDI ≠ IRET), if_neg (by decide : LDI ≠ PUSH),
      if_neg (by decide : LDI ≠ POP), if_pos rfl]
    simp only [pySet_nat s.reg r v (by omega : r < s.reg.length), Instr.enc]
    rfl
  | prn r =>
    have hr : r < 8 := by simpa [Instr.wf] using hwf
    obtain ⟨p0, post', hp⟩ : ∃ p0 post', post = p0 :: post' := by
      cases post with
      | nil => simp at hpost
      | cons x xs => exact ⟨x, xs, rfl⟩
    subst hp
    have hs : step s = exec s PRN r p0 := step_at s PRN r p0 post' pre hram hpc
    obtain ⟨vr, hvr⟩ := listGet?_lt s.reg r (by omega)
    have hg : pyGet s.reg (r : Int) = some vr := by
      rw [pyGet_nat s.reg r (by omega), hvr]
    refine ⟨s.reg, hreg, ?_⟩
    rw [hs]
    unfold exec
    rw [if_neg (by decide : PRN ≠ HLT), if_neg (by decide : PRN ≠ CALL),
      if_neg (by decide : PRN ≠ IRET), if_neg (by decide : PRN ≠ PUSH),
      if_neg (by decide : PRN ≠ POP), if_neg (by decide : PRN ≠ LDI),
      if_neg (by decide : PRN ≠ MUL), if_neg (by decide : PRN ≠ ADD), if_pos rfl]
    simp only [hg, Instr.enc]
    rfl
  | add a b =>
    have hab : a < 8 ∧ b < 8 := by simpa [Instr.wf] using hwf
    have hs : step s = exec s ADD a b := step_at s ADD a b _ pre hram hpc
    obtain ⟨va, hva⟩ := listGet?_lt s.reg a (by omega)
    obtain ⟨vb, hvb⟩ := listGet?_lt s.reg b (by omega)
    have hga : pyGet s.reg (a : Int) = some va := by
      rw [pyGet_nat s.reg a (by omega), hva]
    have hgb : pyGet s.reg (b : Int) = some vb := by
      rw [pyGet_nat s.reg b (by omega), hvb]
    have halu : alu s ADD a b = .ok { s with reg := s.reg.set a (va + vb) } := by
      unfold alu
      rw [if_pos rfl]
      simp only [hga, hgb, pySet_nat s.reg a (va + vb) (by omega : a < s.reg.length)]
    refine ⟨s.reg.set a (va + vb), by simp [hreg], ?_⟩
    rw [hs]
    unfold exec
    rw [if_neg (by decide : ADD ≠ HLT), if_neg (by decide : ADD ≠ CALL),
      if_neg (by decide : ADD ≠ IRET), if_neg (by decide : ADD ≠ PUSH),
      if_neg (by decide : ADD ≠ POP), if_neg (by decide : ADD ≠ LDI),
      if_neg (by decide : ADD ≠ MUL), if_pos rfl]
    simp only [halu, Instr.enc]
    rfl
  | mul a b =>
    have hab : a < 8 ∧ b < 8 := by simpa [Instr.wf] using hwf
    have hs : step s = exec s MUL a b := step_at s MUL a b _ pre hram hpc
    obtain ⟨va, hva⟩ := listGet?_lt s.reg a (by omega)
    obtain ⟨vb, hvb⟩ := listGet?_lt s.reg b (by omega)
    have hga : pyGet s.reg (a : Int) = some va := by
      rw [pyGet_nat s.reg a (by omega), hva]
    have hgb : pyGet s.reg (b : Int) = some vb := by
      rw [pyGet_nat s.reg b (by omega), hvb]
    have halu : alu s MUL a b = .ok { s with reg := s.reg.set a (va * vb) } := by
      unfold alu
      rw [if_neg (by decide : MUL ≠ ADD), if_pos rfl]
      simp only [hga, hgb, pySet_nat s.reg a (va * vb) (by omega : a < s.reg.length)]
    refine ⟨s.reg.set a (va * vb), by simp [hreg], ?_⟩
    rw [hs]
    unfold exec
    rw [if_neg (by decide : MUL ≠ HLT), if_neg (by decide : MUL ≠ CALL),
      if_neg (by decide : MUL ≠ IRET), if_neg (by decide : MUL ≠ PUSH),
      if_neg (by decide : MUL ≠ POP), if_neg (by decide : MUL ≠ LDI), if_pos rfl]
    simp only [halu, Instr.enc]
    rfl

theorem runFuel_straight (is : List Instr) :
    ∀ (s : CPUState) (pre post : List Nat),
      s.ram = pre ++ (encProg is ++ post) → s.ram.length = 256 →
      s.pc = pre.length → s.reg.length = 8 → is.all Instr.wf = true →
      2 ≤ post.length →
      ∃ s1, runFuel (is.length + 1) s = .ok (some s1) := by
  induction is with
  | nil =>
    intro s pre post hram hlen hpc hreg hwf hpost
    obtain ⟨p0, p1, post', hp⟩ : ∃ p0 p1 post', post = p0 :: p1 :: post' := by
      cases post with
      | nil => simp at hpost
      | cons x xs =>
        cases xs with
        | nil => simp at hpost
        | cons y ys => exact ⟨x, y, ys, rfl⟩
    subst hp
    have hs : step s = exec s HLT p0 p1 := step_at s HLT p0 p1 post' pre hram hpc
    refine ⟨s, ?_⟩
    rw [show ([] : List Instr).length + 1 = 0 + 1 from rfl, runFuel_succ, hs]
    rfl
  | cons i rest ih =>
    intro s pre post hram hlen hpc hreg hwf hpost
    simp only [List.all_cons, Bool.and_eq_true] at hwf
    obtain ⟨reg1, hreg1, hstep⟩ :=
      step_straight i s pre (encProg rest ++ post)
        (by rw [hram]; simp only [encProg, List.append_assoc])
        hlen hpc hreg hwf.1 (by simp; omega)
    obtain ⟨sf, hsf⟩ := ih { s with reg := reg1, pc := s.pc + i.enc.length }
      (pre ++ i.enc) post
      (by
        show s.ram = (pre ++ i.enc) ++ (encProg rest ++ post)
        rw [hram]
        simp only [encProg, List.append_assoc])
      hlen
      (by
        show s.pc + i.enc.length = (pre ++ i.enc).length
        rw [List.length_append, hpc])
      hreg1 hwf.2 hpost
    refine ⟨sf, ?_⟩
    rw [show (i :: rest).length + 1 = (rest.length + 1) + 1 from rfl, runFuel_succ, hstep]
    exact hsf

/-- C1 counterexample: the two-byte program IRET; HLT consists solely
of opcodes in the dispatch table and ends in HLT, yet `run()` never
terminates: IRET is a no-op that does not advance `pc`, so the loop
re-fetches and re-executes it forever. -/
theorem c1_counterexample : ¬ Terminates (loadProgram [IRET, HLT]) := by
  have hstep : step (loadProgram [IRET, HLT]) = .ok (loadProgram [IRET, HLT], true) := rfl
  rintro ⟨n, s1, hn⟩
  rw [runFuel_spin _ hstep n] at hn
  exact Option.noConfusion (Except.ok.inj hn)

/-- C1 amended: for every well-formed straight-line program — a
sequence of LDI/PRN/ADD/MUL instructions with register operands in
0..7, terminated by HLT, whose byte image fits below the last two
memory cells — `run()` terminates and leaves the loop's running flag
false.  The original claim is false because the dispatch table also
contains IRET (a no-op that never advances `pc`, looping forever, see
the counterexample) and CALL (which can jump backwards). -/
theorem c1_straightline_terminates (is : List Instr)
    (hwf : is.all Instr.wf = true)
    (hfit : (encProg is).length ≤ 254) :
    Terminates (loadProgram (encProg is)) := by
  have hL : (encProg is ++ List.replicate (256 - (encProg is).length) 0).length = 256 := by
    simp only [List.length_append, List.length_replicate]
    omega
  obtain ⟨s1, h⟩ := runFuel_straight is (loadProgram (encProg is)) []
    (List.replicate (256 - (encProg is).length) 0)
    (by show encProg is ++ _ = [] ++ (encProg is ++ _); rw [List.nil_append])
    (by show (encProg is ++ _).length = 256; exact hL)
    rfl rfl hwf
    (by simp only [List.length_replicate]; omega)
  exact ⟨is.length + 1, s1, h⟩

theorem c1_straightline_terminates_witness :
    ([Instr.ldi 0 8, Instr.prn 0].all Instr.wf = true) ∧
    (encProg [Instr.ldi 0 8, Instr.prn 0]).length ≤ 254 ∧
    Terminates (loadProgram (encProg [Instr.ldi 0 8, Instr.prn 0])) :=
  ⟨by decide, by decide,
    c1_straightline_terminates [Instr.ldi 0 8, Instr.prn 0] (by decide) (by decide)⟩

end LS8
